import Mathlib

/-
Verification development for the Finnish job aggregator
(src/fin_jobs_aggregator.py).  The Python source is shallowly embedded:
pure helper functions become Lean functions, the BeautifulSoup DOM is a
small tree type, CSS selection and regular expressions are modelled on the
fragment the program exercises, fallible operations return Except, and the
crawler's while-loop becomes a recursion on the number of remaining pages.
-/

set_option maxRecDepth 10000

namespace Agg

/-- Python whitespace characters recognised by the regular expression
class backslash-s (ASCII fragment, which is what the program meets). -/
def isSpaceChar (c : Char) : Bool :=
  c = ' ' || c = '\t' || c = '\n' || c = '\r' || c = '\x0b' || c = '\x0c'

/-- Split a character list into maximal whitespace-free words;
auxiliary accumulator holds the current word reversed. -/
def pyWordsAux : List Char → List Char → List String
  | [], acc => if acc = [] then [] else [String.mk acc.reverse]
  | c :: rest, acc =>
    if isSpaceChar c then
      if acc = [] then pyWordsAux rest [] else String.mk acc.reverse :: pyWordsAux rest []
    else pyWordsAux rest (c :: acc)

/-- Model of str.join with a single-space separator (Python " ".join). -/
def joinSpace : List String → String
  | [] => ""
  | [s] => s
  | s :: rest => s ++ " " ++ joinSpace rest

/-- Embedding of normalize_space (src line 50): collapse every run of
whitespace to one space and strip the ends; the argument is optional
exactly as in the source (s or ""). -/
def normalize_space (s : Option String) : String :=
  joinSpace (pyWordsAux (s.getD "").toList [])

/-- Model of Python str.strip() on the ASCII whitespace the program meets. -/
def pyStrip (s : String) : String :=
  String.mk (((s.toList.dropWhile isSpaceChar).reverse.dropWhile isSpaceChar).reverse)

/-- Model of Python str.lower() on the ASCII fragment the identity keys,
keywords and pagination phrases use. -/
def pyLower (s : String) : String :=
  String.mk (s.toList.map Char.toLower)

/-- Substring test on character lists: does the second list occur
contiguously inside the first? -/
def containsSub (hay needle : List Char) : Bool :=
  match hay with
  | [] => needle.isEmpty
  | _ :: t => needle.isPrefixOf hay || containsSub t needle

/-- Model of the Python membership test needle in hay on strings. -/
def strContains (hay needle : String) : Bool :=
  containsSub hay.toList needle.toList

/-- Model of Python falsy-or on strings: x or d is d when x is "" or absent. -/
def pyOrStr (o : Option String) (d : String) : String :=
  match o with
  | none => d
  | some s => if s = "" then d else s

/-- Truthiness of a Python value that is either None or a string. -/
def pyTruthyOpt (o : Option String) : Bool :=
  match o with
  | none => false
  | some s => !(s == "")

/-- Model of the external urllib.parse.urljoin collaborator, restricted to
the fragment this development exercises: CPython returns url unchanged when
base is falsy and base when url is falsy; an absolute url (one containing
"://") replaces the base; relative resolution against a non-empty base is
modelled as concatenation.  Every concrete page in this file uses an empty
base, where the model agrees with CPython exactly; the theorems never
depend on the relative-resolution case beyond non-emptiness. -/
def urljoin (base url : String) : String :=
  if base = "" then url
  else if url = "" then base
  else if strContains url "://" then url
  else base ++ url

/-- Identity key of a url: trimmed then lower-cased (Job.key, src line 47). -/
def urlKey (u : String) : String := pyLower (pyStrip u)

/-- Embedding of the Job dataclass (src lines 36-47).  Fields that Python
types as Optional[str] are Option String. -/
structure Job where
  source : String
  title : String
  company : String
  location : String
  url : String
  posted : Option String := none
  posted_dt : Option String := none
  salary : Option String := none
  snippet : Option String := none
deriving Repr, DecidableEq

/-- Embedding of Job.key (src line 47): self.url.strip().lower(). -/
def Job.key (j : Job) : String := urlKey j.url

/-- A parsed HTML tree.  BeautifulSoup(html, "html.parser") is external;
the embedding works directly on the parsed tree, with elements carrying a
tag name, an attribute list and children, and text nodes carrying their
string. -/
inductive Node where
  | elem (tag : String) (attrs : List (String × String)) (children : List Node)
  | text (s : String)

/-- First value bound to an attribute name, as Tag.get returns it. -/
def getAttrL (attrs : List (String × String)) (name : String) : Option String :=
  (attrs.find? (fun p => p.1 == name)).map Prod.snd

/-- Attribute lookup on a node (Tag.get; text nodes have no attributes). -/
def Node.getAttr : Node → String → Option String
  | Node.elem _ attrs _, name => getAttrL attrs name
  | Node.text _, _ => none

mutual

/-- All descendant nodes in document (pre-) order, the order in which
soupsieve yields select matches. -/
def descendants : Node → List Node
  | Node.text _ => []
  | Node.elem _ _ cs => descList cs

/-- Descendants of a forest of siblings, document order. -/
def descList : List Node → List Node
  | [] => []
  | c :: cs => c :: descendants c ++ descList cs

end

mutual

/-- Strings of all descendant text nodes in document order. -/
def textsOf : Node → List String
  | Node.text s => [s]
  | Node.elem _ _ cs => textsOfList cs

/-- Text-node strings of a forest of siblings. -/
def textsOfList : List Node → List String
  | [] => []
  | c :: cs => textsOf c ++ textsOfList cs

end

/-- Model of Tag.get_text(" "): all descendant strings joined by one space. -/
def get_text (n : Node) : String :=
  match n with
  | Node.text s => s
  | Node.elem _ _ _ => joinSpace (textsOf n)

/-- Model of the bs4 .string property: defined only while the node chain
has exactly one child, recursing through single-child elements. -/
def nodeString : Node → Option String
  | Node.text s => some s
  | Node.elem _ _ [c] => nodeString c
  | Node.elem _ _ _ => none

/-- The CSS selector fragment the program's configurations exercise:
a bare tag name, a class selector, a tag with a required attribute, and a
tag with an exact attribute value. -/
inductive Sel where
  | tag (t : String)
  | cls (c : String)
  | tagAttr (t a : String)
  | tagAttrVal (t a v : String)
deriving Repr, DecidableEq

/-- Characters allowed in the modelled selector names. -/
def isNameChar (c : Char) : Bool :=
  c.isAlpha || c.isDigit || c = '-' || c = '_'

/-- Parse the bracketed attribute part of a selector such as a[href] or
a[rel="next"]; any other shape is a syntax error. -/
def parseSelAttr (tg : String) (r : List Char) : Option Sel :=
  let aChars := r.takeWhile isNameChar
  let r2 := r.drop aChars.length
  if aChars = [] then none
  else
    match r2 with
    | [']'] => some (Sel.tagAttr tg (String.mk aChars))
    | '=' :: '"' :: r3 =>
      let vChars := r3.takeWhile (fun c => !(c == '"'))
      let r4 := r3.drop vChars.length
      if r4 = ['"', ']'] then some (Sel.tagAttrVal tg (String.mk aChars) (String.mk vChars))
      else none
    | _ => none

/-- Model of soupsieve selector compilation on the modelled fragment: a
string outside the fragment yields none, standing for the
SelectorSyntaxError that soup.select raises on a malformed selector. -/
def parseSel (s : String) : Option Sel :=
  match s.toList with
  | [] => none
  | '.' :: rest =>
    if rest ≠ [] ∧ rest.all isNameChar then some (Sel.cls (String.mk rest)) else none
  | cs =>
    let tChars := cs.takeWhile isNameChar
    let rest := cs.drop tChars.length
    if tChars = [] then none
    else
      match rest with
      | [] => some (Sel.tag (String.mk tChars))
      | '[' :: r => parseSelAttr (String.mk tChars) r
      | _ => none

/-- Class attribute values split on whitespace, as HTML class lists are. -/
def splitClasses (s : String) : List String :=
  pyWordsAux s.toList []

/-- Attribute value comparison: the HTML rel attribute is matched
ASCII-case-insensitively by CSS attribute selectors, other attributes
exactly, which is soupsieve's behaviour on html.parser documents. -/
def attrValMatches (name target actual : String) : Bool :=
  if name = "rel" then pyLower actual == pyLower target else actual == target

/-- Does an element with the given tag and attributes match a selector? -/
def matchesSel : Sel → String → List (String × String) → Bool
  | Sel.tag t, tag, _ => tag == t
  | Sel.cls c, _, attrs =>
    match getAttrL attrs "class" with
    | some v => (splitClasses v).contains c
    | none => false
  | Sel.tagAttr t a, tag, attrs => tag == t && (getAttrL attrs a).isSome
  | Sel.tagAttrVal t a v, tag, attrs =>
    tag == t &&
      (match getAttrL attrs a with
       | some actual => attrValMatches a v actual
       | none => false)

/-- Node-level selector match (text nodes never match). -/
def matchesNode (sel : Sel) : Node → Bool
  | Node.elem t a _ => matchesSel sel t a
  | Node.text _ => false

/-- Model of node.select(sel): matching descendants in document order. -/
def selectAll (root : Node) (sel : Sel) : List Node :=
  (descendants root).filter (matchesNode sel)

/-- Model of node.select_one(sel): first match in document order. -/
def selectFirst (root : Node) (sel : Sel) : Option Node :=
  (selectAll root sel).head?

/-- Regex metacharacters of Python re; a pattern containing any of them is
outside the modelled fragment. -/
def regexMeta : List Char :=
  ['\\', '.', '^', '$', '*', '+', '?', '\x7b', '\x7d', '[', ']', '|', '(', ')']

/-- A compiled regular expression of the modelled literal fragment. -/
structure Regex where
  lit : String
deriving Repr, DecidableEq

/-- Model of re.compile restricted to the literal fragment: a pattern free
of metacharacters compiles to a literal searched for by substring test
(exactly Python's semantics for such patterns); a pattern containing a
metacharacter is outside the fragment and is modelled as failing to
compile, which covers in particular every pattern Python itself rejects
with re.error (such as an unbalanced parenthesis). -/
def compileRegex (p : String) : Option Regex :=
  if p.toList.any (fun c => regexMeta.contains c) then none else some ⟨p⟩

/-- Model of Pattern.search for the literal fragment: substring test. -/
def Regex.search (r : Regex) (s : String) : Bool :=
  strContains s r.lit

/-- Case-insensitive substring search, modelling re.search with re.I on a
literal pattern (ASCII lowering, which the concrete inputs stay inside). -/
def searchCI (phrase s : String) : Bool :=
  strContains (pyLower s) (pyLower phrase)

/-- Embedding of the selectors dictionary of a site rule (spec section 3,
src lines 90-91 and 113-116).  Absent keys are none.  The Python shape
rules.get("selectors", rules), which lets a rule double as its own
selector table, is modelled by always working on this record. -/
structure Selectors where
  container : Option String := none
  title : Option String := none
  company : Option String := none
  location : Option String := none
  link : Option String := none
  posted : Option String := none
  salary : Option String := none
  snippet : Option String := none
  base : Option String := none
  link_pattern : Option String := none
  next_selector : Option String := none
deriving Repr, DecidableEq

/-- Embedding of sel_text (src lines 67-70).  A falsy selector (None or
"") yields ""; a selector outside the modelled CSS fragment raises, which
is the SelectorSyntaxError of soup.select_one; otherwise the first match's
get_text(" ") is whitespace-normalized, or "" when nothing matches. -/
def sel_text (node : Node) (sel : Option String) : Except String String :=
  match sel with
  | none => Except.ok ""
  | some s =>
    if s = "" then Except.ok ""
    else
      match parseSel s with
      | none => Except.error ("SelectorSyntaxError: " ++ s)
      | some q =>
        Except.ok (normalize_space (match selectFirst node q with
          | some el => some (get_text el)
          | none => some ""))

/-- Embedding of sel_attr (src lines 72-75).  A falsy selector yields "";
an invalid one raises; with a match the attribute is looked up with
Tag.get, whose absent case is Python None, modelled as none; with no
match the function returns "". -/
def sel_attr (node : Node) (sel : Option String) (attr : String) :
    Except String (Option String) :=
  match sel with
  | none => Except.ok (some "")
  | some s =>
    if s = "" then Except.ok (some "")
    else
      match parseSel s with
      | none => Except.error ("SelectorSyntaxError: " ++ s)
      | some q =>
        Except.ok (match selectFirst node q with
          | some el => el.getAttr attr
          | none => some "")

/-- Embedding of the card body of the structured pass (src lines 95-110):
field extraction for one container match, yielding some Job when title and
url are truthy and none otherwise.  The external dateparser collaborator
is the parameter pd. -/
def extractCard (pd : String → Option String) (sel : Selectors) (source_name : String)
    (default_location : Option String) (card : Node) : Except String (Option Job) :=
  match sel_text card sel.title with
  | Except.error e => Except.error e
  | Except.ok title =>
  match sel_text card sel.company with
  | Except.error e => Except.error e
  | Except.ok company =>
  match sel_text card sel.location with
  | Except.error e => Except.error e
  | Except.ok loc0 =>
  let location := pyOrStr (some loc0) (default_location.getD "")
  match sel_attr card sel.link "href" with
  | Except.error e => Except.error e
  | Except.ok url0 =>
  let url : Option String :=
    if pyTruthyOpt url0 then some (urljoin (sel.base.getD "") (url0.getD "")) else url0
  match sel_text card sel.posted with
  | Except.error e => Except.error e
  | Except.ok posted_txt =>
  match sel_text card sel.salary with
  | Except.error e => Except.error e
  | Except.ok salary =>
  match sel_text card sel.snippet with
  | Except.error e => Except.error e
  | Except.ok snippet =>
  if title ≠ "" ∧ pyTruthyOpt url then
    Except.ok (some
      { source := source_name, title := title, company := company, location := location
        url := url.getD ""
        posted := some posted_txt
        posted_dt := if posted_txt ≠ "" then pd posted_txt else none
        salary := some salary, snippet := some snippet })
  else Except.ok none

/-- The structured pass's loop over container matches (src lines 95-110),
threading the output list. -/
def structured_pass (pd : String → Option String) (sel : Selectors) (source_name : String)
    (default_location : Option String) : List Node → List Job → Except String (List Job)
  | [], out => Except.ok out
  | c :: rest, out =>
    match extractCard pd sel source_name default_location c with
    | Except.error e => Except.error e
    | Except.ok j => structured_pass pd sel source_name default_location rest (out ++ j.toList)

/-- The Posting a fallback match synthesizes (src lines 124-128). -/
def mkFallbackJob (source_name : String) (dloc : Option String) (title url : String) : Job :=
  { source := source_name, title := title, company := "", location := dloc.getD ""
    url := url, posted := none, posted_dt := none, salary := none, snippet := some "" }

/-- The fallback pass's loop over the page's a[href] anchors
(src lines 117-128), appending to the structured pass's output list. -/
def fallback_pass (pat : Regex) (base source_name : String) (dloc : Option String) :
    List Node → List Job → List Job
  | [], out => out
  | a :: rest, out =>
    let href := (a.getAttr "href").getD ""
    if href = "" ∨ pat.search href = false then fallback_pass pat base source_name dloc rest out
    else
      let url := urljoin base href
      let title := pyOrStr (some (normalize_space (some (get_text a)))) "Job posting"
      if out.any (fun j => j.url == url) then fallback_pass pat base source_name dloc rest out
      else fallback_pass pat base source_name dloc rest
        (out ++ [mkFallbackJob source_name dloc title url])

/-- Stage one of extract_jobs_from_html (src lines 94-110): the structured
pass runs when container is truthy, raising, as soup.select does, when the
container selector is malformed. -/
def extract_stage1 (pd : String → Option String) (soup : Node) (rules : Selectors)
    (source_name : String) (default_location : Option String) : Except String (List Job) :=
  if pyTruthyOpt rules.container then
    match parseSel (rules.container.getD "") with
    | none => Except.error ("SelectorSyntaxError: " ++ rules.container.getD "")
    | some q => structured_pass pd rules source_name default_location (selectAll soup q) []
  else Except.ok []

/-- Stage two of extract_jobs_from_html (src lines 113-128): the fallback
pass runs when link_pattern is truthy, raising, as re.compile does, when
the pattern is invalid.  The anchors scanned are soup.select("a[href]"),
a literal selector that always parses. -/
def extract_stage2 (soup : Node) (rules : Selectors) (source_name : String)
    (default_location : Option String) (out : List Job) : Except String (List Job) :=
  if pyTruthyOpt rules.link_pattern then
    match compileRegex (rules.link_pattern.getD "") with
    | none => Except.error ("re.error: " ++ rules.link_pattern.getD "")
    | some pat =>
      Except.ok (fallback_pass pat (rules.base.getD "") source_name default_location
        (selectAll soup (Sel.tagAttr "a" "href")) out)
  else Except.ok out

/-- Embedding of extract_jobs_from_html (src lines 81-130): the structured
pass, then the fallback pass over its output list. -/
def extract_jobs_from_html (pd : String → Option String) (soup : Node) (rules : Selectors)
    (source_name : String) (default_location : Option String) : Except String (List Job) :=
  match extract_stage1 pd soup rules source_name default_location with
  | Except.error e => Except.error e
  | Except.ok out => extract_stage2 soup rules source_name default_location out

/-- The literal phrases of the pagination text heuristic (src line 145). -/
def phrases : List String := ["Seuraava", "Next", "Näytä lisää", "Load more"]

/-- Model of soup.find("a", string=re.compile(txt, re.I)): the first
anchor in document order whose .string content exists and contains the
phrase case-insensitively. -/
def findAnchorByString (root : Node) (phrase : String) : Option Node :=
  ((descendants root).filter (fun n =>
    matchesNode (Sel.tag "a") n &&
      (match nodeString n with
       | some s => searchCI phrase s
       | none => false))).head?

/-- An element's href when truthy (el.get("href") guarded by if). -/
def truthyHref (el : Node) : Option String :=
  match el.getAttr "href" with
  | some h => if h = "" then none else some h
  | none => none

/-- The text-heuristic tier of find_next_url (src lines 145-148): each
phrase in order is looked up with soup.find, and the first phrase whose
found anchor has a truthy href wins. -/
def findPhraseAnchor (soup : Node) : List String → Option String
  | [] => none
  | txt :: rest =>
    match findAnchorByString soup txt with
    | some el =>
      match truthyHref el with
      | some h => some h
      | none => findPhraseAnchor soup rest
    | none => findPhraseAnchor soup rest

/-- Embedding of find_next_url (src lines 132-149): next_selector first
(raising when the configured selector is malformed), then the literal
selector a[rel="next"], then the phrase heuristic; every returned href is
resolved against base. -/
def find_next_url (soup : Node) (selectors : Selectors) : Except String (Option String) :=
  let base := selectors.base.getD ""
  match
    (if pyTruthyOpt selectors.next_selector then
      match parseSel (selectors.next_selector.getD "") with
      | none => Except.error ("SelectorSyntaxError: " ++ selectors.next_selector.getD "")
      | some q => Except.ok ((selectFirst soup q).bind truthyHref)
     else Except.ok none) with
  | Except.error e => Except.error e
  | Except.ok r1 =>
    match r1 with
    | some h => Except.ok (some (urljoin base h))
    | none =>
      match (selectFirst soup (Sel.tagAttrVal "a" "rel" "next")).bind truthyHref with
      | some h => Except.ok (some (urljoin base h))
      | none =>
        match findPhraseAnchor soup phrases with
        | some h => Except.ok (some (urljoin base h))
        | none => Except.ok none

/-- One entry of a pages list in the site configuration: either a mapping
with its own default_location or a bare url string (src lines 154-159). -/
inductive PageSpec where
  | withLoc (url : String) (default_location : Option String)
  | plain (url : String)
deriving Repr, DecidableEq

/-- Embedding of one site's configuration mapping (spec section 6).  The
delay field only feeds time.sleep, a pure pause with no effect on any
result, and is omitted.  max_pages carries the source's default 4. -/
structure SiteCfg where
  selectors : Selectors := {}
  pages : Option (List PageSpec) := none
  urls : Option (List String) := none
  url : Option String := none
  default_location : Option String := none
  max_pages : Nat := 4
deriving Repr, DecidableEq

/-- Embedding of build_pages (src lines 152-165): pages, then urls, then
url, each normalized to (start url, default location) pairs. -/
def build_pages (cfg : SiteCfg) : List (String × Option String) :=
  match cfg.pages with
  | some ps =>
    ps.map (fun p =>
      match p with
      | PageSpec.withLoc u l => (u, l)
      | PageSpec.plain u => (u, cfg.default_location))
  | none =>
    match cfg.urls with
    | some us => us.map (fun u => (u, cfg.default_location))
    | none =>
      match cfg.url with
      | some u => [(u, cfg.default_location)]
      | none => []

/-- Embedding of the inner accumulation loop of crawl_site
(src lines 187-191): walk the freshly extracted batch, skip keys already
seen, otherwise record the key and append the Posting, breaking as soon as
the running result list reaches max_items. -/
def add_jobs (max_items : Nat) : List Job → List String → List Job → List String × List Job
  | [], seen, results => (seen, results)
  | j :: rest, seen, results =>
    if j.key ∈ seen then add_jobs max_items rest seen results
    else
      let seen2 := seen ++ [j.key]
      let results2 := results ++ [j]
      if max_items ≤ results2.length then (seen2, results2)
      else add_jobs max_items rest seen2 results2

/-- Observable outcome of one start-url walk: the urls actually fetched
(instrumentation recording each call of fetch_url, in order), the walk's
visited set, and the site-level seen set and result list. -/
structure WalkResult where
  fetched : List String
  visited : List String
  seen : List String
  results : List Job
deriving Repr, DecidableEq

/-- Embedding of the while-loop of crawl_site for one start url
(src lines 175-198).  The loop is total because pages_seen strictly
increases towards max_pages; the recursion argument is the number of pages
still allowed, so the source's pages_seen < max_pages test becomes the
zero case.  fetch is the external fetch_url collaborator, returning the
parsed page on an HTTP 200 with truthy body and none on any failure;
time.sleep is a pure pause and is not modelled. -/
def crawl_walk (pd : String → Option String) (fetch : String → Option Node)
    (cfg : SiteCfg) (name : String) (max_items : Nat) (default_loc : Option String) :
    Nat → Option String → List String → List String → List Job → Except String WalkResult
  | 0, _, visited, seen, results => Except.ok ⟨[], visited, seen, results⟩
  | _ + 1, none, visited, seen, results => Except.ok ⟨[], visited, seen, results⟩
  | n + 1, some url, visited, seen, results =>
    if url = "" then Except.ok ⟨[], visited, seen, results⟩
    else if max_items ≤ results.length then Except.ok ⟨[], visited, seen, results⟩
    else if url ∈ visited then Except.ok ⟨[], visited, seen, results⟩
    else
      match fetch url with
      | none => Except.ok ⟨[url], visited ++ [url], seen, results⟩
      | some soup =>
        match extract_jobs_from_html pd soup cfg.selectors name default_loc with
        | Except.error e => Except.error e
        | Except.ok jobs =>
          let sr := add_jobs max_items jobs seen results
          if max_items ≤ sr.2.length then Except.ok ⟨[url], visited ++ [url], sr.1, sr.2⟩
          else
            match find_next_url soup cfg.selectors with
            | Except.error e => Except.error e
            | Except.ok next =>
              match crawl_walk pd fetch cfg name max_items default_loc
                  n next (visited ++ [url]) sr.1 sr.2 with
              | Except.error e => Except.error e
              | Except.ok r => Except.ok ⟨url :: r.fetched, r.visited, r.seen, r.results⟩

/-- The outer loop of crawl_site over start urls (src line 174), threading
the site-level seen set and result list across walks. -/
def crawl_pages (pd : String → Option String) (fetch : String → Option Node)
    (cfg : SiteCfg) (name : String) (max_items : Nat) :
    List (String × Option String) → List String → List Job →
    Except String (List String × List Job)
  | [], seen, results => Except.ok (seen, results)
  | (start_url, dloc) :: rest, seen, results =>
    match crawl_walk pd fetch cfg name max_items dloc
        cfg.max_pages (some start_url) [] seen results with
    | Except.error e => Except.error e
    | Except.ok r => crawl_pages pd fetch cfg name max_items rest r.seen r.results

/-- Embedding of crawl_site (src lines 167-200).  Exceptions escaping the
extractor propagate out, exactly as in the source, where the per-site
try/except lives in main. -/
def crawl_site (pd : String → Option String) (fetch : String → Option Node)
    (name : String) (cfg : SiteCfg) (max_items : Nat) : Except String (List Job) :=
  match crawl_pages pd fetch cfg name max_items (build_pages cfg) [] [] with
  | Except.error e => Except.error e
  | Except.ok sr => Except.ok sr.2

/-- Model of one step of the global dedup dictionary (src lines 395-396):
Python dict assignment keeps an existing key's position but overwrites its
value, and appends a new key at the end. -/
def dictInsert (d : List (String × Job)) (k : String) (j : Job) : List (String × Job) :=
  if d.any (fun p => p.1 == k) then d.map (fun p => if p.1 == k then (k, j) else p)
  else d ++ [(k, j)]

/-- Embedding of the global Deduplicator (src lines 394-397): fold every
Posting into the dictionary keyed by Job.key, then take the values. -/
def dedupe (jobs : List Job) : List Job :=
  (jobs.foldl (fun d j => dictInsert d j.key j) []).map Prod.snd

/-- Embedding of filter_jobs (src lines 346-353): with both lists empty
the input is returned unchanged, otherwise each Posting's searchable text
is its lowered title, company, location and snippet joined by spaces, and
retention needs a keyword hit (or no keywords) and a location hit (or no
locations). -/
def filter_jobs (jobs : List Job) (keywords locations : List String) : List Job :=
  if keywords.isEmpty && locations.isEmpty then jobs
  else jobs.filter (fun j =>
    let text := joinSpace
      [pyLower j.title, pyLower j.company, pyLower j.location, pyLower (j.snippet.getD "")]
    (keywords.isEmpty || keywords.any (fun k => strContains text (pyLower k))) &&
    (locations.isEmpty || locations.any (fun l => strContains text (pyLower l))))

/-- The sort key of the final ordering (src line 408): the posted date or
the falsy-default sentinel, paired with the source name. -/
def jobSortKey (j : Job) : String × String :=
  (pyOrStr j.posted_dt "0000-00-00", j.source)

/-- Strict lexicographic comparison of character lists by code point,
which is Python's string ordering. -/
def charListLt : List Char → List Char → Bool
  | [], [] => false
  | [], _ :: _ => true
  | _ :: _, [] => false
  | a :: as, b :: bs => if a = b then charListLt as bs else decide (a.toNat < b.toNat)

/-- Python's strict string comparison. -/
def strLt (a b : String) : Bool := charListLt a.toList b.toList

/-- Python's non-strict string comparison. -/
def strLe (a b : String) : Bool := strLt a b || a == b

/-- Lexicographic comparison of string pairs, which is how Python compares
the key tuples. -/
def pairLe (a b : String × String) : Bool :=
  if a.1 = b.1 then strLe a.2 b.2 else strLt a.1 b.1

/-- Stable descending insertion: j goes in front of the first element
whose key is at most j's, so elements with equal keys keep their original
relative order. -/
def insertByKeyDesc (j : Job) : List Job → List Job
  | [] => [j]
  | x :: xs =>
    if pairLe (jobSortKey x) (jobSortKey j) then j :: x :: xs else x :: insertByKeyDesc j xs

/-- Embedding of jobs.sort(key=..., reverse=True) (src line 408): Python's
sort is stable, and reverse=True gives descending order with ties kept in
original order; any stable descending sort is extensionally the same, and
this one inserts right to left. -/
def sortJobs (jobs : List Job) : List Job :=
  jobs.foldr insertByKeyDesc []

/-- A configured selector is harmless when absent, empty, or inside the
modelled CSS fragment. -/
def selOk (o : Option String) : Bool :=
  match o with
  | none => true
  | some s => s == "" || (parseSel s).isSome

/-- A configured link pattern is harmless when absent, empty, or compiling
in the modelled regex fragment. -/
def patOk (o : Option String) : Bool :=
  match o with
  | none => true
  | some s => s == "" || (compileRegex s).isSome

/-- The fallback pass as claim C2 words it: for every anchor whose href
matches the pattern, a Posting is synthesized exactly when no structured
pass Posting is already present by identity key (the trimmed, lower-cased
resolved url). -/
def fallback_claim (pat : Regex) (base source_name : String) (dloc : Option String)
    (anchors : List Node) (structured : List Job) : List Job :=
  anchors.filterMap (fun a =>
    let href := (a.getAttr "href").getD ""
    if href = "" ∨ pat.search href = false then none
    else
      let url := urljoin base href
      if structured.any (fun j => j.key == urlKey url) then none
      else some (mkFallbackJob source_name dloc
        (pyOrStr (some (normalize_space (some (get_text a)))) "Job posting") url))

/-- The Postings the fallback pass adds, as the amended claim words it: a
matching anchor synthesizes a Posting exactly when no Posting already in
the running output, the structured results together with the fallback
Postings synthesized so far, has a url exactly string-equal to the
anchor's resolved url. -/
def fallback_spec (pat : Regex) (base source_name : String) (dloc : Option String) :
    List Node → List Job → List Job
  | [], _ => []
  | a :: rest, existing =>
    let href := (a.getAttr "href").getD ""
    if href = "" ∨ pat.search href = false then
      fallback_spec pat base source_name dloc rest existing
    else
      let url := urljoin base href
      if existing.any (fun j => j.url == url) then
        fallback_spec pat base source_name dloc rest existing
      else
        let j := mkFallbackJob source_name dloc
          (pyOrStr (some (normalize_space (some (get_text a)))) "Job posting") url
        j :: fallback_spec pat base source_name dloc rest (existing ++ [j])

/-- The pagination result as claim C7 words it: next_selector first, then
the rel=next anchor, then the href of the first anchor in document order
whose visible text matches any of the four phrases case-insensitively,
each href resolved against base. -/
def find_next_claim (soup : Node) (selectors : Selectors) : Option String :=
  let base := selectors.base.getD ""
  let t1 :=
    if pyTruthyOpt selectors.next_selector then
      match parseSel (selectors.next_selector.getD "") with
      | some q => (selectFirst soup q).bind truthyHref
      | none => none
    else none
  match t1 with
  | some h => some (urljoin base h)
  | none =>
    match (selectFirst soup (Sel.tagAttrVal "a" "rel" "next")).bind truthyHref with
    | some h => some (urljoin base h)
    | none =>
      match ((descendants soup).filter (fun n =>
          matchesNode (Sel.tag "a") n &&
            phrases.any (fun p => searchCI p (get_text n)))).head? with
      | some el => (truthyHref el).map (urljoin base)
      | none => none

/-- The pagination result as the amended claim words it: tiers 1 and 2 as
in C7, but tier 3 walks the phrase list in its fixed order and, for each
phrase, takes the first anchor whose single-string content contains it
case-insensitively and that carries a truthy href, so an earlier phrase
beats an earlier anchor. -/
def find_next_spec (soup : Node) (selectors : Selectors) : Option String :=
  let base := selectors.base.getD ""
  let t1 :=
    if pyTruthyOpt selectors.next_selector then
      match parseSel (selectors.next_selector.getD "") with
      | some q => (selectFirst soup q).bind truthyHref
      | none => none
    else none
  match t1 with
  | some h => some (urljoin base h)
  | none =>
    match (selectFirst soup (Sel.tagAttrVal "a" "rel" "next")).bind truthyHref with
    | some h => some (urljoin base h)
    | none => (findPhraseAnchor soup phrases).map (urljoin base)

/-- Per-site accumulation as claim C10 words it: walk the batch in
discovery order, discard any Posting whose key is already in the seen set,
keep the first-seen Posting for a new key, and stop once the running
result length reaches the cap.  The second argument is the seen set, the
third the current result length. -/
def first_wins (max_items : Nat) : List Job → List String → Nat → List Job
  | [], _, _ => []
  | j :: rest, seenKeys, len =>
    if j.key ∈ seenKeys then first_wins max_items rest seenKeys len
    else if max_items ≤ len + 1 then [j]
    else j :: first_wins max_items rest (seenKeys ++ [j.key]) (len + 1)

/-- The searchable text of a Posting as claim C8 words it: title, company,
location and snippet concatenated (space separated, as the source joins
them). -/
def postingText (j : Job) : String :=
  joinSpace [j.title, j.company, j.location, j.snippet.getD ""]

/-- Retention as claim C8 words it: no keywords or a keyword occurring
case-insensitively in the concatenated text, and no locations or a
location term occurring in the same text. -/
def retainedSpec (keywords locations : List String) (j : Job) : Bool :=
  (keywords.isEmpty || keywords.any (fun k => searchCI k (postingText j))) &&
  (locations.isEmpty || locations.any (fun l => searchCI l (postingText j)))

/-- The external date parser instantiated to parse nothing, used by the
concrete scenarios, none of which carries a posted date. -/
def pdNone : String → Option String := fun _ => none

/-- An empty document. -/
def soupEmpty : Node := Node.elem "[document]" [] []

/-- A rule whose link_pattern is the invalid regular expression "(". -/
def selBad : Selectors := { link_pattern := some "(" }

/-- Scenario page for the fallback dedup: one structured card whose link
href is upper-case "X", then a stray anchor with lower-case href "x". -/
def soupC : Node :=
  Node.elem "[document]" []
    [Node.elem "div" [("class", "job")]
      [Node.elem "h2" [] [Node.text "T"],
       Node.elem "a" [("href", "X")] [Node.text "T"]],
     Node.elem "a" [("href", "x")] [Node.text "L"]]

/-- Rule for the fallback dedup scenario. -/
def selC : Selectors :=
  { container := some ".job", title := some "h2", link := some "a"
    base := some "", link_pattern := some "x" }

/-- The structured Posting of the scenario (url "X"). -/
def jX : Job :=
  { source := "s", title := "T", company := "", location := "", url := "X"
    posted := some "", posted_dt := none, salary := some "", snippet := some "" }

/-- The fallback Posting of the scenario (url "x", same identity key). -/
def jx : Job := mkFallbackJob "s" none "L" "x"

/-- The compiled literal pattern "x". -/
def regexX : Regex := ⟨"x"⟩

/-- Scenario Posting A of the sort claim: date 2024-05-01, source "x". -/
def jobA : Job :=
  { source := "x", title := "A", company := "", location := "", url := "a"
    posted_dt := some "2024-05-01" }

/-- Scenario Posting B of the sort claim: date 2024-05-01, source "a". -/
def jobB : Job :=
  { source := "a", title := "B", company := "", location := "", url := "b"
    posted_dt := some "2024-05-01" }

/-- Pagination scenario page: the first anchor's text matches the phrase
"Next", the second anchor's text matches the earlier-listed phrase
"Seuraava". -/
def soupN : Node :=
  Node.elem "[document]" []
    [Node.elem "a" [("href", "/n1")] [Node.text "Next page"],
     Node.elem "a" [("href", "/n2")] [Node.text "Seuraava sivu"]]

/-- Rule for the pagination scenario: no next_selector, empty base. -/
def selN : Selectors := { base := some "" }

/-- Page with a single anchor whose href is the all-whitespace string " "
and that has no text. -/
def soupWS : Node :=
  Node.elem "[document]" [] [Node.elem "a" [("href", " ")] []]

/-- Rule matching the whitespace href through the literal pattern " ". -/
def selWS : Selectors := { base := some "", link_pattern := some " " }

/-- The Posting the whitespace-href page yields: placeholder title, url " ". -/
def jWS : Job := mkFallbackJob "s" none "Job posting" " "

/-- Crawl scenario page: two fallback anchors with distinct hrefs. -/
def pageX : Node :=
  Node.elem "[document]" []
    [Node.elem "a" [("href", "j1")] [Node.text "Alpha"],
     Node.elem "a" [("href", "j2")] [Node.text "Beta"]]

/-- Crawl scenario configuration: one start url, fallback-only rule. -/
def cfgX : SiteCfg :=
  { selectors := { link_pattern := some "j", base := some "" }, url := some "start" }

/-- Crawl scenario fetcher: the start url resolves to the page, every
other fetch fails. -/
def fetchX : String → Option Node :=
  fun u => if u = "start" then some pageX else none

/-- A fetcher that always fails. -/
def fetchNone : String → Option Node := fun _ => none

/-- First Posting the crawl scenario collects. -/
def jobX1 : Job := mkFallbackJob "s" none "Alpha" "j1"

/-- Second Posting the crawl scenario collects. -/
def jobX2 : Job := mkFallbackJob "s" none "Beta" "j2"

/-- A selector that is valid-or-absent makes sel_text total. -/
theorem sel_text_ok (node : Node) (o : Option String) (h : selOk o = true) :
    ∃ s, sel_text node o = Except.ok s := by
  cases hres : sel_text node o with
  | ok v => exact ⟨v, rfl⟩
  | error e =>
    exfalso
    cases o with
    | none => simp [sel_text] at hres
    | some s =>
      by_cases hs : s = ""
      · simp [sel_text, hs] at hres
      · simp only [selOk, Bool.or_eq_true, beq_iff_eq] at h
        rcases h with h | h
        · exact absurd h hs
        · obtain ⟨q, hq⟩ := Option.isSome_iff_exists.mp h
          simp [sel_text, hs, hq] at hres

/-- A selector that is valid-or-absent makes sel_attr total. -/
theorem sel_attr_ok (node : Node) (o : Option String) (attr : String) (h : selOk o = true) :
    ∃ s, sel_attr node o attr = Except.ok s := by
  cases hres : sel_attr node o attr with
  | ok v => exact ⟨v, rfl⟩
  | error e =>
    exfalso
    cases o with
    | none => simp [sel_attr] at hres
    | some s =>
      by_cases hs : s = ""
      · simp [sel_attr, hs] at hres
      · simp only [selOk, Bool.or_eq_true, beq_iff_eq] at h
        rcases h with h | h
        · exact absurd h hs
        · obtain ⟨q, hq⟩ := Option.isSome_iff_exists.mp h
          simp [sel_attr, hs, hq] at hres

/-- With every field selector valid-or-absent the card extractor is total. -/
theorem extractCard_ok (pd : String → Option String) (sel : Selectors) (sn : String)
    (dl : Option String) (card : Node)
    (h1 : selOk sel.title = true) (h2 : selOk sel.company = true)
    (h3 : selOk sel.location = true) (h4 : selOk sel.link = true)
    (h5 : selOk sel.posted = true) (h6 : selOk sel.salary = true)
    (h7 : selOk sel.snippet = true) :
    ∃ r, extractCard pd sel sn dl card = Except.ok r := by
  obtain ⟨t, et⟩ := sel_text_ok card sel.title h1
  obtain ⟨c, ec⟩ := sel_text_ok card sel.company h2
  obtain ⟨l, el⟩ := sel_text_ok card sel.location h3
  obtain ⟨u, eu⟩ := sel_attr_ok card sel.link "href" h4
  obtain ⟨p, ep⟩ := sel_text_ok card sel.posted h5
  obtain ⟨sa, esa⟩ := sel_text_ok card sel.salary h6
  obtain ⟨sni, esni⟩ := sel_text_ok card sel.snippet h7
  cases hres : extractCard pd sel sn dl card with
  | ok r => exact ⟨r, rfl⟩
  | error e =>
    exfalso
    simp only [extractCard, et, ec, el, eu, ep, esa, esni] at hres
    split at hres <;> (try split at hres) <;> exact Except.noConfusion hres

/-- With every field selector valid-or-absent the structured pass is total. -/
theorem structured_pass_ok (pd : String → Option String) (sel : Selectors) (sn : String)
    (dl : Option String)
    (h1 : selOk sel.title = true) (h2 : selOk sel.company = true)
    (h3 : selOk sel.location = true) (h4 : selOk sel.link = true)
    (h5 : selOk sel.posted = true) (h6 : selOk sel.salary = true)
    (h7 : selOk sel.snippet = true) :
    ∀ cards out, ∃ res, structured_pass pd sel sn dl cards out = Except.ok res := by
  intro cards
  induction cards with
  | nil => exact fun out => ⟨out, rfl⟩
  | cons c rest ih =>
    intro out
    obtain ⟨r, hr⟩ := extractCard_ok pd sel sn dl c h1 h2 h3 h4 h5 h6 h7
    simp only [structured_pass, hr]
    exact ih _

/-- Claim C1, countered: an invalid link_pattern regular expression is not
swallowed — re.compile raises inside the extractor, so an exception does
escape extract_jobs_from_html. -/
theorem C1_counterexample :
    extract_jobs_from_html pdNone soupEmpty selBad "s" none = Except.error "re.error: (" :=
  rfl

/-- Claim C1 as amended: for every page, source name and default location,
when each configured selector string is absent, empty or well-formed and
link_pattern, if set, compiles, the extractor returns a possibly-empty
Posting list and no exception escapes; absent or empty selectors only
reduce the output.  (The counterexample shows the unrestricted claim
fails: an invalid link_pattern or selector string raises.) -/
theorem C1_amended (pd : String → Option String) (soup : Node) (rules : Selectors)
    (sn : String) (dl : Option String)
    (h0 : selOk rules.container = true)
    (h1 : selOk rules.title = true) (h2 : selOk rules.company = true)
    (h3 : selOk rules.location = true) (h4 : selOk rules.link = true)
    (h5 : selOk rules.posted = true) (h6 : selOk rules.salary = true)
    (h7 : selOk rules.snippet = true) (h8 : patOk rules.link_pattern = true) :
    ∃ out, extract_jobs_from_html pd soup rules sn dl = Except.ok out := by
  have stage1 : ∃ out1, extract_stage1 pd soup rules sn dl = Except.ok out1 := by
    cases hres : extract_stage1 pd soup rules sn dl with
    | ok v => exact ⟨v, rfl⟩
    | error e =>
      exfalso
      by_cases hc : pyTruthyOpt rules.container = true
      · cases hcv : rules.container with
        | none => rw [hcv] at hc; simp [pyTruthyOpt] at hc
        | some s =>
          rw [hcv] at hc
          have hs : ¬ s = "" := by
            simp only [pyTruthyOpt, Bool.not_eq_true'] at hc
            intro hcon
            rw [hcon] at hc
            simp at hc
          have hps : (parseSel s).isSome = true := by
            rw [hcv] at h0
            simp only [selOk, Bool.or_eq_true, beq_iff_eq] at h0
            rcases h0 with h | h
            · exact absurd h hs
            · exact h
          obtain ⟨q, hq⟩ := Option.isSome_iff_exists.mp hps
          obtain ⟨res, hres2⟩ :=
            structured_pass_ok pd rules sn dl h1 h2 h3 h4 h5 h6 h7 (selectAll soup q) []
          rw [extract_stage1, hcv] at hres
          simp only [hc, if_true, Option.getD_some, hq, hres2] at hres
          exact Except.noConfusion hres
      · simp only [Bool.not_eq_true] at hc
        rw [extract_stage1] at hres
        simp only [hc, Bool.false_eq_true, if_false] at hres
        exact Except.noConfusion hres
  obtain ⟨out1, hout1⟩ := stage1
  have stage2 : ∃ out2, extract_stage2 soup rules sn dl out1 = Except.ok out2 := by
    cases hres : extract_stage2 soup rules sn dl out1 with
    | ok v => exact ⟨v, rfl⟩
    | error e =>
      exfalso
      by_cases hp : pyTruthyOpt rules.link_pattern = true
      · cases hpv : rules.link_pattern with
        | none => rw [hpv] at hp; simp [pyTruthyOpt] at hp
        | some s =>
          rw [hpv] at hp
          have hs : ¬ s = "" := by
            simp only [pyTruthyOpt, Bool.not_eq_true'] at hp
            intro hcon
            rw [hcon] at hp
            simp at hp
          have hcs : (compileRegex s).isSome = true := by
            rw [hpv] at h8
            simp only [patOk, Bool.or_eq_true, beq_iff_eq] at h8
            rcases h8 with h | h
            · exact absurd h hs
            · exact h
          obtain ⟨pat, hpat⟩ := Option.isSome_iff_exists.mp hcs
          rw [extract_stage2, hpv] at hres
          simp only [hp, if_true, Option.getD_some, hpat] at hres
          exact Except.noConfusion hres
      · simp only [Bool.not_eq_true] at hp
        rw [extract_stage2] at hres
        simp only [hp, Bool.false_eq_true, if_false] at hres
        exact Except.noConfusion hres
  obtain ⟨out2, hout2⟩ := stage2
  refine ⟨out2, ?_⟩
  rw [extract_jobs_from_html, hout1]
  exact hout2

/-- Witness for the amended C1 at the concrete fallback-dedup rule. -/
theorem C1_witness :
    (selOk selC.container = true ∧ selOk selC.title = true ∧ selOk selC.company = true ∧
     selOk selC.location = true ∧ selOk selC.link = true ∧ selOk selC.posted = true ∧
     selOk selC.salary = true ∧ selOk selC.snippet = true ∧ patOk selC.link_pattern = true) ∧
    ∃ out, extract_jobs_from_html pdNone soupC selC "s" none = Except.ok out :=
  ⟨⟨by decide, by decide, by decide, by decide, by decide, by decide, by decide, by decide,
    by decide⟩,
   C1_amended pdNone soupC selC "s" none (by decide) (by decide) (by decide) (by decide)
     (by decide) (by decide) (by decide) (by decide) (by decide)⟩

/-- Claim C3, countered: with A dated 2024-05-01 from source "x" and B
dated 2024-05-01 from source "a", the descending sort on the (date,
source) pair puts A first, so the input [A, B] stays [A, B] and is not
the claimed [B, A]. -/
theorem C3_counterexample :
    sortJobs [jobA, jobB] = [jobA, jobB] ∧ sortJobs [jobA, jobB] ≠ [jobB, jobA] := by
  constructor
  · decide
  · decide

/-- Claim C3 as amended: under the stable descending sort by (postedDate
or the sentinel minimum date, source name), the input [A, B] is returned
as [A, B]: on equal dates the lexicographically larger source "x" sorts
before "a", because the pair order is descending in both components. -/
theorem C3_amended :
    sortJobs [jobA, jobB] = [jobA, jobB] ∧ pairLe (jobSortKey jobB) (jobSortKey jobA) = true := by
  constructor
  · decide
  · decide

/-- Claim C2, countered: on the scenario page the structured pass yields
the Posting with url "X" and the stray anchor resolves to url "x"; the two
have the same identity key, so the claim predicts no fallback Posting, yet
the extractor emits one because its duplicate test compares raw urls. -/
theorem C2_counterexample :
    extract_jobs_from_html pdNone soupC selC "s" none = Except.ok [jX, jx] ∧
    jX.key = jx.key ∧
    compileRegex "x" = some regexX ∧
    fallback_claim regexX "" "s" none (selectAll soupC (Sel.tagAttr "a" "href")) [jX] = [] :=
  ⟨rfl, by decide, by decide, by decide⟩

/-- Claim C2 as amended: in the fallback pass a matching anchor
synthesizes a Posting exactly when no Posting already in the running
output — the structured results plus the fallback Postings synthesized so
far on this page — has a url exactly string-equal to the anchor's resolved
url; the test is raw url equality, not the trimmed lower-cased identity
key. -/
theorem C2_amended (pat : Regex) (base sn : String) (dloc : Option String) :
    ∀ anchors out, fallback_pass pat base sn dloc anchors out
      = out ++ fallback_spec pat base sn dloc anchors out := by
  intro anchors
  induction anchors with
  | nil => intro out; simp [fallback_pass, fallback_spec]
  | cons a rest ih =>
    intro out
    simp only [fallback_pass, fallback_spec]
    by_cases h1 :
        ((a.getAttr "href").getD "" = "" ∨ pat.search ((a.getAttr "href").getD "") = false)
    · simp only [if_pos h1]
      exact ih out
    · simp only [if_neg h1]
      by_cases h2 :
          out.any (fun j => j.url == urljoin base ((a.getAttr "href").getD "")) = true
      · simp only [h2, if_true]
        exact ih out
      · simp only [Bool.not_eq_true] at h2
        simp only [h2, Bool.false_eq_true, if_false]
        rw [ih]
        simp [List.append_assoc]

/-- Claim C7, countered: on a page whose first anchor is "Next page" and
whose second is "Seuraava sivu", the first anchor in document order that
matches one of the phrases is the "Next page" one, but the code scans
phrase by phrase and "Seuraava" is listed first, so it returns the second
anchor's href. -/
theorem C7_counterexample :
    find_next_url soupN selN = Except.ok (some "/n2") ∧
    find_next_claim soupN selN = some "/n1" ∧
    ("/n1" : String) ≠ "/n2" :=
  ⟨rfl, by decide, by decide⟩

/-- Claim C7 as amended: provided next_selector, when set, is a
well-formed selector, the resolver obeys the precedence next_selector,
then the rel=next anchor, then the text heuristic — where the heuristic
walks the phrase list "Seuraava", "Next", "Näytä lisää", "Load more" in
that fixed order and, for each phrase, picks the first anchor whose string
content matches it case-insensitively and that carries a truthy href, an
earlier phrase beating an earlier anchor; every href is resolved against
base and the result is none when no tier matches. -/
theorem C7_amended (soup : Node) (sel : Selectors) (h : selOk sel.next_selector = true) :
    find_next_url soup sel = Except.ok (find_next_spec soup sel) := by
  by_cases hn : pyTruthyOpt sel.next_selector = true
  · cases hnv : sel.next_selector with
    | none => rw [hnv] at hn; simp [pyTruthyOpt] at hn
    | some s =>
      rw [hnv] at hn
      have hs : ¬ s = "" := by
        simp only [pyTruthyOpt, Bool.not_eq_true'] at hn
        intro hcon
        rw [hcon] at hn
        simp at hn
      have hps : (parseSel s).isSome = true := by
        rw [hnv] at h
        simp only [selOk, Bool.or_eq_true, beq_iff_eq] at h
        rcases h with h | h
        · exact absurd h hs
        · exact h
      obtain ⟨q, hq⟩ := Option.isSome_iff_exists.mp hps
      rw [find_next_url, find_next_spec, hnv]
      simp only [hn, if_true, Option.getD_some, hq]
      cases (selectFirst soup q).bind truthyHref with
      | some hh => rfl
      | none =>
        cases (selectFirst soup (Sel.tagAttrVal "a" "rel" "next")).bind truthyHref with
        | some hh => rfl
        | none =>
          cases findPhraseAnchor soup phrases with
          | some hh => rfl
          | none => rfl
  · simp only [Bool.not_eq_true] at hn
    rw [find_next_url, find_next_spec]
    simp only [hn, Bool.false_eq_true, if_false]
    cases (selectFirst soup (Sel.tagAttrVal "a" "rel" "next")).bind truthyHref with
    | some hh => rfl
    | none =>
      cases findPhraseAnchor soup phrases with
      | some hh => rfl
      | none => rfl

/-- Witness for the amended C7 at the scenario page. -/
theorem C7_witness :
    selOk selN.next_selector = true ∧
    find_next_url soupN selN = Except.ok (find_next_spec soupN selN) :=
  ⟨by decide, C7_amended soupN selN (by decide)⟩

/-- Appending a non-empty string on the right keeps a string non-empty. -/
theorem append_ne_empty_right (a b : String) (h : b ≠ "") : a ++ b ≠ "" := by
  cases a with | mk la =>
  cases b with | mk lb =>
  intro hcon
  apply h
  have hl : la ++ lb = [] := by
    have : String.mk (la ++ lb) = String.mk [] := hcon
    injection this
  rcases List.append_eq_nil.mp hl with ⟨_, h2⟩
  rw [h2]

/-- The join of a non-empty url against any base is non-empty. -/
theorem urljoin_ne_empty (base url : String) (h : url ≠ "") : urljoin base url ≠ "" := by
  rw [urljoin]
  by_cases hb : base = ""
  · simpa [hb] using h
  · simp only [hb, if_false]
    rw [if_neg h]
    by_cases hc : strContains url "://" = true
    · simpa [hc] using h
    · simp only [Bool.not_eq_true] at hc
      simp only [hc, Bool.false_eq_true, if_false]
      exact append_ne_empty_right base url h

/-- A falsy-or with a non-empty default is non-empty. -/
theorem pyOrStr_ne_empty (o : Option String) (d : String) (hd : d ≠ "") :
    pyOrStr o d ≠ "" := by
  cases o with
  | none => simpa [pyOrStr] using hd
  | some s =>
    by_cases hs : s = ""
    · simpa [pyOrStr, hs] using hd
    · simp only [pyOrStr, hs, if_false]
      exact hs

/-- A truthy optional string has a non-empty underlying value. -/
theorem pyTruthy_getD_ne (o : Option String) (h : pyTruthyOpt o = true) : o.getD "" ≠ "" := by
  cases o with
  | none => simp [pyTruthyOpt] at h
  | some s =>
    simp only [pyTruthyOpt, Bool.not_eq_eq_eq_not, Bool.not_false, beq_iff_eq] at h
    simpa using h

/-- A Posting admitted by the structured pass has non-empty title and url,
by the guard that re-checks both after resolution. -/
theorem extractCard_P (pd : String → Option String) (sel : Selectors) (sn : String)
    (dl : Option String) (card : Node) (j : Job)
    (h : extractCard pd sel sn dl card = Except.ok (some j)) :
    j.title ≠ "" ∧ j.url ≠ "" := by
  cases e1 : sel_text card sel.title with
  | error e => simp [extractCard, e1] at h
  | ok t =>
  cases e2 : sel_text card sel.company with
  | error e => simp [extractCard, e1, e2] at h
  | ok c =>
  cases e3 : sel_text card sel.location with
  | error e => simp [extractCard, e1, e2, e3] at h
  | ok l =>
  cases e4 : sel_attr card sel.link "href" with
  | error e => simp [extractCard, e1, e2, e3, e4] at h
  | ok u =>
  cases e5 : sel_text card sel.posted with
  | error e => simp [extractCard, e1, e2, e3, e4, e5] at h
  | ok p =>
  cases e6 : sel_text card sel.salary with
  | error e => simp [extractCard, e1, e2, e3, e4, e5, e6] at h
  | ok sa =>
  cases e7 : sel_text card sel.snippet with
  | error e => simp [extractCard, e1, e2, e3, e4, e5, e6, e7] at h
  | ok sni =>
  simp only [extractCard, e1, e2, e3, e4, e5, e6, e7] at h
  by_cases hout : (¬ t = "" ∧
      pyTruthyOpt (if pyTruthyOpt u = true then
        some (urljoin (sel.base.getD "") (u.getD "")) else u) = true)
  · rw [if_pos hout] at h
    injection h with h1
    injection h1 with h2
    subst h2
    obtain ⟨ht, hu⟩ := hout
    exact ⟨ht, pyTruthy_getD_ne _ hu⟩
  · rw [if_neg hout] at h
    simp at h

/-- Every Posting the structured pass adds satisfies the non-empty
title/url property, provided the accumulator already does. -/
theorem structured_pass_P (pd : String → Option String) (sel : Selectors) (sn : String)
    (dl : Option String) :
    ∀ cards acc out, (∀ j ∈ acc, j.title ≠ "" ∧ j.url ≠ "") →
      structured_pass pd sel sn dl cards acc = Except.ok out →
      ∀ j ∈ out, j.title ≠ "" ∧ j.url ≠ "" := by
  intro cards
  induction cards with
  | nil =>
    intro acc out hacc h
    simp only [structured_pass] at h
    injection h with h1
    subst h1
    exact hacc
  | cons c rest ih =>
    intro acc out hacc h
    cases hec : extractCard pd sel sn dl c with
    | error e => simp [structured_pass, hec] at h
    | ok jopt =>
      have h2 : structured_pass pd sel sn dl rest (acc ++ jopt.toList) = Except.ok out := by
        simp only [structured_pass, hec] at h
        exact h
      refine ih (acc ++ jopt.toList) out ?_ h2
      intro j hj
      rcases List.mem_append.mp hj with hj | hj
      · exact hacc j hj
      · cases jopt with
        | none => simp at hj
        | some jj =>
          simp only [Option.toList_some, List.mem_singleton] at hj
          subst hj
          exact extractCard_P pd sel sn dl c j hec

/-- Every Posting the fallback pass adds satisfies the non-empty
title/url property, provided the accumulator already does. -/
theorem fallback_pass_P (pat : Regex) (base sn : String) (dloc : Option String) :
    ∀ anchors out, (∀ j ∈ out, j.title ≠ "" ∧ j.url ≠ "") →
      ∀ j ∈ fallback_pass pat base sn dloc anchors out, j.title ≠ "" ∧ j.url ≠ "" := by
  intro anchors
  induction anchors with
  | nil =>
    intro out hout
    simp only [fallback_pass]
    exact hout
  | cons a rest ih =>
    intro out hout
    simp only [fallback_pass]
    by_cases h1 :
        ((a.getAttr "href").getD "" = "" ∨ pat.search ((a.getAttr "href").getD "") = false)
    · simp only [if_pos h1]
      exact ih out hout
    · simp only [if_neg h1]
      by_cases h2 :
          out.any (fun j => j.url == urljoin base ((a.getAttr "href").getD "")) = true
      · simp only [h2, if_true]
        exact ih out hout
      · simp only [Bool.not_eq_true] at h2
        simp only [h2, Bool.false_eq_true, if_false]
        apply ih
        intro j hj
        rcases List.mem_append.mp hj with hj | hj
        · exact hout j hj
        · simp only [List.mem_singleton] at hj
          subst hj
          push_neg at h1
          constructor
          · show pyOrStr (some (normalize_space (some (get_text a)))) "Job posting" ≠ ""
            exact pyOrStr_ne_empty _ _ (by decide)
          · show urljoin base ((a.getAttr "href").getD "") ≠ ""
            exact urljoin_ne_empty base _ h1.1

/-- Claim C9, countered: an anchor whose href is the whitespace string " "
matched through the literal pattern " " yields a Posting whose url is " ",
which is non-empty as a raw string but empty after whitespace
normalization, so "non-empty url after whitespace normalization" fails. -/
theorem C9_counterexample :
    extract_jobs_from_html pdNone soupWS selWS "s" none = Except.ok [jWS] ∧
    jWS.url = " " ∧ normalize_space (some jWS.url) = "" :=
  ⟨rfl, rfl, by decide⟩

/-- Claim C9 as amended: every Posting the extractor returns has a
non-empty title (already whitespace-normalized, or the placeholder) and a
non-empty url as a raw string; the url is not whitespace-normalized, so a
whitespace-only href yields a url that is blank after trimming. -/
theorem C9_amended (pd : String → Option String) (soup : Node) (rules : Selectors)
    (sn : String) (dl : Option String) (out : List Job)
    (h : extract_jobs_from_html pd soup rules sn dl = Except.ok out) :
    ∀ j ∈ out, j.title ≠ "" ∧ j.url ≠ "" := by
  rw [extract_jobs_from_html] at h
  cases h1 : extract_stage1 pd soup rules sn dl with
  | error e => rw [h1] at h; exact Except.noConfusion h
  | ok out1 =>
    rw [h1] at h
    have h2 : extract_stage2 soup rules sn dl out1 = Except.ok out := h
    have hP1 : ∀ j ∈ out1, j.title ≠ "" ∧ j.url ≠ "" := by
      rw [extract_stage1] at h1
      split at h1
      · split at h1
        · exact Except.noConfusion h1
        · exact structured_pass_P pd rules sn dl _ [] out1 (by simp) h1
      · injection h1 with h1a
        subst h1a
        intro j hj
        simp at hj
    rw [extract_stage2] at h2
    split at h2
    · split at h2
      · exact Except.noConfusion h2
      · injection h2 with h2a
        subst h2a
        exact fallback_pass_P _ _ _ _ _ out1 hP1
    · injection h2 with h2a
      subst h2a
      exact hP1

/-- Witness for the amended C9 at the whitespace-href page. -/
theorem C9_witness :
    extract_jobs_from_html pdNone soupWS selWS "s" none = Except.ok [jWS] ∧
    (jWS.title ≠ "" ∧ jWS.url ≠ "") :=
  ⟨rfl, C9_amended pdNone soupWS selWS "s" none [jWS] rfl jWS (List.mem_singleton.mpr rfl)⟩

/-- Lowering distributes over string concatenation. -/
theorem pyLower_append (a b : String) : pyLower (a ++ b) = pyLower a ++ pyLower b := by
  cases a with | mk la =>
  cases b with | mk lb =>
  show String.mk ((la ++ lb).map Char.toLower) = String.mk (la.map Char.toLower ++ lb.map Char.toLower)
  rw [List.map_append]

/-- Lowering distributes over the space join. -/
theorem pyLower_joinSpace (l : List String) :
    pyLower (joinSpace l) = joinSpace (l.map pyLower) := by
  induction l with
  | nil => rfl
  | cons s rest ih =>
    cases rest with
    | nil => rfl
    | cons t ts =>
      show pyLower (s ++ " " ++ joinSpace (t :: ts)) =
        joinSpace (pyLower s :: pyLower t :: ts.map pyLower)
      rw [pyLower_append, pyLower_append, ih]
      rfl

/-- The lowered concatenated text of a Posting is the joined lowered
fields used by filter_jobs. -/
theorem lower_postingText (j : Job) :
    pyLower (postingText j) =
    joinSpace [pyLower j.title, pyLower j.company, pyLower j.location,
      pyLower (j.snippet.getD "")] := by
  rw [postingText, pyLower_joinSpace]
  rfl

/-- Claim C8, confirmed: with both keyword and location lists empty the
Filter returns the input unchanged, and otherwise a Posting is retained
exactly when (no keywords, or some keyword is a case-insensitive substring
of the concatenated title, company, location and snippet text) and (no
locations, or some location term is such a substring of the same text). -/
theorem C8_filter (jobs : List Job) (keywords locations : List String) :
    filter_jobs jobs keywords locations =
      if keywords.isEmpty && locations.isEmpty then jobs
      else jobs.filter (retainedSpec keywords locations) := by
  rw [filter_jobs]
  by_cases h : (keywords.isEmpty && locations.isEmpty) = true
  · rw [if_pos h, if_pos h]
  · rw [if_neg h, if_neg h]
    apply List.filter_congr
    intro j _
    simp only [retainedSpec, searchCI, lower_postingText j]

/-- Replacement by key is the identity on an association list without the
key. -/
theorem map_replace_eq_self (k : String) (j : Job) :
    ∀ d : List (String × Job), (∀ p ∈ d, (p.1 == k) = false) →
      d.map (fun p => if p.1 == k then (k, j) else p) = d := by
  intro d
  induction d with
  | nil => intro _; rfl
  | cons p rest ih =>
    intro h
    have hp := h p (List.mem_cons_self p rest)
    rw [List.map_cons, ih (fun r hr => h r (List.mem_cons_of_mem p hr))]
    simp [hp]

/-- Filtering the values of a replaced association list: with the
invariants that stored values carry their key and keys are distinct, the
entry for the inserted key, which the any-test guarantees exists, is the
only survivor of its key class and now holds the new value. -/
theorem replace_filter (q : String) (j : Job) :
    ∀ d : List (String × Job), (∀ p ∈ d, p.2.key = p.1) →
      d.Pairwise (fun a b => a.1 ≠ b.1) →
      d.any (fun p => p.1 == j.key) = true →
      ((d.map (fun p => if p.1 == j.key then (j.key, j) else p)).map Prod.snd).filter
          (fun x => x.key == q) =
        if j.key = q then [j] else (d.map Prod.snd).filter (fun x => x.key == q) := by
  intro d
  induction d with
  | nil => intro _ _ hany; simp at hany
  | cons p rest ih =>
    intro hinv hpw hany
    have hinvr : ∀ r ∈ rest, r.2.key = r.1 := fun r hr => hinv r (List.mem_cons_of_mem p hr)
    have hpwr : rest.Pairwise (fun a b => a.1 ≠ b.1) := (List.pairwise_cons.mp hpw).2
    by_cases hp : (p.1 == j.key) = true
    · have hpk : p.1 = j.key := beq_iff_eq.mp hp
      have hrest : ∀ r ∈ rest, (r.1 == j.key) = false := by
        intro r hr
        have hne := (List.pairwise_cons.mp hpw).1 r hr
        rw [hpk] at hne
        exact beq_eq_false_iff_ne.mpr (fun hcon => hne hcon.symm)
      rw [List.map_cons, map_replace_eq_self j.key j rest hrest]
      simp only [hp, if_true, List.map_cons, List.filter_cons]
      by_cases hq : j.key = q
      · have hrestq : (rest.map Prod.snd).filter (fun x => x.key == q) = [] := by
          rw [List.filter_eq_nil_iff]
          intro x hx
          obtain ⟨r, hr, hrx⟩ := List.mem_map.mp hx
          have h1 := hinvr r hr
          have h2 := beq_eq_false_iff_ne.mp (hrest r hr)
          simp only [Bool.not_eq_true, beq_eq_false_iff_ne]
          rw [← hrx, h1, ← hq]
          exact h2
        simp [hq, hrestq]
      · have hkq : ((j.key == q)) = false := beq_eq_false_iff_ne.mpr hq
        have hpq : ((p.2.key == q)) = false := by
          rw [hinv p (List.mem_cons_self p rest), hpk]
          exact hkq
        simp [hq, hkq, hpq]
    · have hany2 : rest.any (fun r => r.1 == j.key) = true := by
        simp only [List.any_cons, Bool.or_eq_true] at hany
        rcases hany with h | h
        · exact absurd h (by simp [hp])
        · exact h
      have ihr := ih hinvr hpwr hany2
      simp only [List.map_cons, hp, Bool.false_eq_true, if_false, List.filter_cons]
      rw [ihr]
      by_cases hq : j.key = q
      · have hpq : ((p.2.key == q)) = false := by
          rw [hinv p (List.mem_cons_self p rest)]
          exact beq_eq_false_iff_ne.mpr
            (fun hcon => hp (beq_iff_eq.mpr (hcon.trans hq.symm)))
        simp [hq, hpq]
      · simp only [hq, if_false]

/-- dictInsert with a Posting keyed by its own key preserves the
association-list invariants. -/
theorem dictInsert_inv (j : Job) :
    ∀ d : List (String × Job), (∀ p ∈ d, p.2.key = p.1) →
      d.Pairwise (fun a b => a.1 ≠ b.1) →
      (∀ p ∈ dictInsert d j.key j, p.2.key = p.1) ∧
      (dictInsert d j.key j).Pairwise (fun a b => a.1 ≠ b.1) := by
  intro d hinv hpw
  rw [dictInsert]
  by_cases hany : d.any (fun p => p.1 == j.key) = true
  · simp only [hany, if_true]
    constructor
    · intro p hp
      obtain ⟨r, hr, hrp⟩ := List.mem_map.mp hp
      by_cases hrk : (r.1 == j.key) = true
      · rw [← hrp]
        simp [hrk]
      · rw [← hrp]
        simp only [Bool.not_eq_true] at hrk
        simp only [hrk, Bool.false_eq_true, if_false]
        exact hinv r hr
    · have hfst : ∀ p : String × Job, ((if p.1 == j.key then (j.key, j) else p)).1 = p.1 := by
        intro p
        by_cases hp : (p.1 == j.key) = true
        · simp only [hp, if_true]
          exact (beq_iff_eq.mp hp).symm
        · simp only [Bool.not_eq_true] at hp
          simp [hp]
      rw [List.pairwise_map]
      refine hpw.imp_of_mem ?_
      intro a b ha hb hab
      rw [hfst a, hfst b]
      exact hab
  · rw [Bool.not_eq_true] at hany
    simp only [hany, Bool.false_eq_true, if_false]
    constructor
    · intro p hp
      rcases List.mem_append.mp hp with hp | hp
      · exact hinv p hp
      · simp only [List.mem_singleton] at hp
        subst hp
        rfl
    · rw [List.pairwise_append]
      refine ⟨hpw, by simp, ?_⟩
      intro a ha b hb
      simp only [List.mem_singleton] at hb
      subst hb
      have h2 := List.any_eq_false.mp hany a ha
      simp only [Bool.not_eq_true, beq_eq_false_iff_ne] at h2
      exact h2

/-- Filtering the values after one dictInsert step: the inserted Posting
is the lone survivor of its own key class, other key classes are
untouched. -/
theorem dictInsert_filter (q : String) (j : Job) (d : List (String × Job))
    (hinv : ∀ p ∈ d, p.2.key = p.1) (hpw : d.Pairwise (fun a b => a.1 ≠ b.1)) :
    ((dictInsert d j.key j).map Prod.snd).filter (fun x => x.key == q) =
      if j.key = q then [j] else (d.map Prod.snd).filter (fun x => x.key == q) := by
  rw [dictInsert]
  by_cases hany : d.any (fun p => p.1 == j.key) = true
  · simp only [hany, if_true]
    exact replace_filter q j d hinv hpw hany
  · rw [Bool.not_eq_true] at hany
    simp only [hany, Bool.false_eq_true, if_false, List.map_append, List.filter_append]
    have hnew : ([(j.key, j)].map Prod.snd).filter (fun x => x.key == q) =
        if j.key = q then [j] else [] := by
      by_cases hq : j.key = q
      · simp [hq]
      · simp [List.filter_cons, beq_eq_false_iff_ne.mpr hq, hq]
    rw [hnew]
    by_cases hq : j.key = q
    · have hold : (d.map Prod.snd).filter (fun x => x.key == q) = [] := by
        rw [List.filter_eq_nil_iff]
        intro x hx
        obtain ⟨r, hr, hrx⟩ := List.mem_map.mp hx
        have h1 := hinv r hr
        have h2 := List.any_eq_false.mp hany r hr
        simp only [Bool.not_eq_true, beq_eq_false_iff_ne] at h2 ⊢
        rw [← hrx, h1, ← hq]
        exact h2
      simp [hq, hold]
    · simp [hq]

/-- The dedup fold characterized: for every key class, the values of the
final dictionary filtered to that class are the last input Posting of the
class, or the untouched entries of the starting dictionary when the input
has none. -/
theorem dedupe_foldl (q : String) :
    ∀ (jobs : List Job) (d : List (String × Job)),
      (∀ p ∈ d, p.2.key = p.1) → d.Pairwise (fun a b => a.1 ≠ b.1) →
      ((jobs.foldl (fun d j => dictInsert d j.key j) d).map Prod.snd).filter
          (fun x => x.key == q) =
      (match (jobs.filter (fun x => x.key == q)).getLast? with
       | some x => [x]
       | none => (d.map Prod.snd).filter (fun x => x.key == q)) := by
  intro jobs
  induction jobs with
  | nil =>
    intro d hinv hpw
    rfl
  | cons j rest ih =>
    intro d hinv hpw
    obtain ⟨hinv2, hpw2⟩ := dictInsert_inv j d hinv hpw
    rw [List.foldl_cons, ih (dictInsert d j.key j) hinv2 hpw2,
      dictInsert_filter q j d hinv hpw]
    by_cases hq : j.key = q
    · have hfc : (j :: rest).filter (fun x => x.key == q) =
          j :: rest.filter (fun x => x.key == q) := by
        simp [List.filter_cons, hq]
      rw [hfc]
      cases hl : rest.filter (fun x => x.key == q) with
      | nil => simp [hq]
      | cons y ys =>
        rw [List.getLast?_cons_cons]
        cases hz : (y :: ys).getLast? with
        | none => simp at hz
        | some z => rfl
    · have hfc : (j :: rest).filter (fun x => x.key == q) =
          rest.filter (fun x => x.key == q) := by
        simp [List.filter_cons, beq_eq_false_iff_ne.mpr hq]
      rw [hfc]
      cases hl : (rest.filter (fun x => x.key == q)).getLast? with
      | none => simp [hq]
      | some z => rfl

/-- Claim C6, confirmed: the global Deduplicator keyed by the trimmed
lower-cased url is last-write-wins — for every input and every key, the
output's Postings with that key are exactly the last input Posting with
that key, so there is exactly one output Posting per distinct identity key
occurring in the input. -/
theorem C6_dedupe (jobs : List Job) (q : String) :
    (dedupe jobs).filter (fun x => x.key == q) =
      ((jobs.filter (fun x => x.key == q)).getLast?).toList := by
  rw [dedupe, dedupe_foldl q jobs [] (by simp) (by simp)]
  cases (jobs.filter (fun x => x.key == q)).getLast? with
  | none => rfl
  | some z => rfl

/-- The per-site accumulation invariant: every collected Posting's key is
recorded in the seen set and no two collected Postings share a key. -/
def JobInv (seen : List String) (results : List Job) : Prop :=
  (∀ j ∈ results, j.key ∈ seen) ∧ results.Pairwise (fun a b => a.key ≠ b.key)

/-- Batch accumulation never grows the result list past the cap, entered
below it. -/
theorem add_jobs_len (m : Nat) :
    ∀ (jobs : List Job) (seen : List String) (results : List Job),
      results.length < m → (add_jobs m jobs seen results).2.length ≤ m := by
  intro jobs
  induction jobs with
  | nil => intro seen results h; exact Nat.le_of_lt h
  | cons j rest ih =>
    intro seen results h
    by_cases hk : j.key ∈ seen
    · simp only [add_jobs, if_pos hk]
      exact ih seen results h
    · simp only [add_jobs, if_neg hk]
      by_cases hc : m ≤ (results ++ [j]).length
      · simp only [if_pos hc]
        simp only [List.length_append, List.length_singleton]
        omega
      · simp only [if_neg hc]
        apply ih
        exact Nat.lt_of_not_le hc

/-- Batch accumulation preserves the per-site invariant. -/
theorem add_jobs_inv (m : Nat) :
    ∀ (jobs : List Job) (seen : List String) (results : List Job),
      JobInv seen results →
      JobInv (add_jobs m jobs seen results).1 (add_jobs m jobs seen results).2 := by
  intro jobs
  induction jobs with
  | nil => intro seen results h; exact h
  | cons j rest ih =>
    intro seen results h
    by_cases hk : j.key ∈ seen
    · simp only [add_jobs, if_pos hk]
      exact ih seen results h
    · simp only [add_jobs, if_neg hk]
      have hnew : JobInv (seen ++ [j.key]) (results ++ [j]) := by
        obtain ⟨h1, h2⟩ := h
        constructor
        · intro x hx
          rcases List.mem_append.mp hx with hx | hx
          · exact List.mem_append.mpr (Or.inl (h1 x hx))
          · simp only [List.mem_singleton] at hx
            subst hx
            exact List.mem_append.mpr (Or.inr (by simp))
        · rw [List.pairwise_append]
          refine ⟨h2, by simp, ?_⟩
          intro a ha b hb
          simp only [List.mem_singleton] at hb
          subst hb
          intro hcon
          exact hk (hcon ▸ h1 a ha)
      by_cases hc : m ≤ (results ++ [j]).length
      · simp only [if_pos hc]
        exact hnew
      · simp only [if_neg hc]
        exact ih _ _ hnew

/-- Batch accumulation is first-wins: it appends exactly the Postings the
first-wins discipline keeps, and records exactly their keys. -/
theorem add_jobs_first_wins (m : Nat) :
    ∀ (jobs : List Job) (seen : List String) (results : List Job),
      add_jobs m jobs seen results =
        (seen ++ (first_wins m jobs seen results.length).map Job.key,
         results ++ first_wins m jobs seen results.length) := by
  intro jobs
  induction jobs with
  | nil => intro seen results; simp [add_jobs, first_wins]
  | cons j rest ih =>
    intro seen results
    by_cases hk : j.key ∈ seen
    · simp only [add_jobs, first_wins, if_pos hk]
      exact ih seen results
    · simp only [add_jobs, first_wins, if_neg hk]
      by_cases hc : m ≤ results.length + 1
      · have hc2 : m ≤ (results ++ [j]).length := by
          simpa [List.length_append] using hc
        rw [if_pos hc2, if_pos hc]
        simp
      · have hc2 : ¬ m ≤ (results ++ [j]).length := by
          simp only [List.length_append, List.length_singleton]
          omega
        rw [if_neg hc2, if_neg hc]
        rw [ih (seen ++ [j.key]) (results ++ [j])]
        simp [List.length_append, List.append_assoc]

/-- Master walk lemma: a successful walk fetches at most its page budget,
keeps the result list at or below the cap it entered at or below, and
preserves the per-site first-wins invariant. -/
theorem crawl_walk_master (pd : String → Option String) (fetch : String → Option Node)
    (cfg : SiteCfg) (name : String) (m : Nat) (dloc : Option String) :
    ∀ (n : Nat) (url : Option String) (visited seen : List String) (results : List Job)
      (r : WalkResult),
      crawl_walk pd fetch cfg name m dloc n url visited seen results = Except.ok r →
      r.fetched.length ≤ n ∧
      (results.length ≤ m → r.results.length ≤ m) ∧
      (JobInv seen results → JobInv r.seen r.results) := by
  intro n
  induction n with
  | zero =>
    intro url visited seen results r h
    have h2 : Except.ok (⟨[], visited, seen, results⟩ : WalkResult) = Except.ok r := h
    injection h2 with h3
    subst h3
    exact ⟨by simp, fun hh => hh, fun hh => hh⟩
  | succ k ih =>
    intro url visited seen results r h
    cases url with
    | none =>
      have h2 : Except.ok (⟨[], visited, seen, results⟩ : WalkResult) = Except.ok r := h
      injection h2 with h3
      subst h3
      exact ⟨by simp, fun hh => hh, fun hh => hh⟩
    | some u =>
      simp only [crawl_walk] at h
      by_cases h1 : u = ""
      · rw [if_pos h1] at h
        injection h with h3
        subst h3
        exact ⟨by simp, fun hh => hh, fun hh => hh⟩
      · rw [if_neg h1] at h
        by_cases h2 : m ≤ results.length
        · rw [if_pos h2] at h
          injection h with h3
          subst h3
          exact ⟨by simp, fun hh => hh, fun hh => hh⟩
        · rw [if_neg h2] at h
          by_cases h3 : u ∈ visited
          · rw [if_pos h3] at h
            injection h with h4
            subst h4
            exact ⟨by simp, fun hh => hh, fun hh => hh⟩
          · rw [if_neg h3] at h
            cases hf : fetch u with
            | none =>
              simp only [hf] at h
              injection h with h4
              subst h4
              refine ⟨by simp, fun hh => hh, fun hh => hh⟩
            | some soup =>
              simp only [hf] at h
              cases he : extract_jobs_from_html pd soup cfg.selectors name dloc with
              | error e =>
                simp only [he] at h
                exact Except.noConfusion h
              | ok jobs =>
                simp only [he] at h
                by_cases hc : m ≤ (add_jobs m jobs seen results).2.length
                · rw [if_pos hc] at h
                  injection h with h4
                  subst h4
                  refine ⟨by simp, fun _ => ?_, fun hinv => ?_⟩
                  · exact add_jobs_len m jobs seen results (Nat.lt_of_not_le h2)
                  · exact add_jobs_inv m jobs seen results hinv
                · rw [if_neg hc] at h
                  cases hn : find_next_url soup cfg.selectors with
                  | error e =>
                    simp only [hn] at h
                    exact Except.noConfusion h
                  | ok next =>
                    simp only [hn] at h
                    cases hw : crawl_walk pd fetch cfg name m dloc k next (visited ++ [u])
                        (add_jobs m jobs seen results).1 (add_jobs m jobs seen results).2 with
                    | error e =>
                      simp only [hw] at h
                      exact Except.noConfusion h
                    | ok r0 =>
                      simp only [hw] at h
                      injection h with h4
                      subst h4
                      obtain ⟨ihf, ihres, ihinv⟩ := ih next (visited ++ [u]) _ _ r0 hw
                      refine ⟨?_, fun _ => ?_, fun hinv => ?_⟩
                      · simpa using Nat.succ_le_succ ihf
                      · exact ihres (add_jobs_len m jobs seen results (Nat.lt_of_not_le h2))
                      · exact ihinv (add_jobs_inv m jobs seen results hinv)

/-- Master outer-loop lemma: the site-level walk over start urls keeps the
cap and the first-wins invariant across all start urls. -/
theorem crawl_pages_master (pd : String → Option String) (fetch : String → Option Node)
    (cfg : SiteCfg) (name : String) (m : Nat) :
    ∀ (pages : List (String × Option String)) (seen : List String) (results : List Job)
      (res : List String × List Job),
      crawl_pages pd fetch cfg name m pages seen results = Except.ok res →
      (results.length ≤ m → res.2.length ≤ m) ∧
      (JobInv seen results → JobInv res.1 res.2) := by
  intro pages
  induction pages with
  | nil =>
    intro seen results res h
    have h2 : Except.ok ((seen, results) : List String × List Job) = Except.ok res := h
    injection h2 with h3
    subst h3
    exact ⟨fun hh => hh, fun hh => hh⟩
  | cons p rest ih =>
    intro seen results res h
    obtain ⟨u, dl⟩ := p
    cases hw : crawl_walk pd fetch cfg name m dl cfg.max_pages (some u) [] seen results with
    | error e => simp [crawl_pages, hw] at h
    | ok r =>
      have h2 : crawl_pages pd fetch cfg name m rest r.seen r.results = Except.ok res := by
        simpa [crawl_pages, hw] using h
      obtain ⟨hlen, hinv⟩ := ih r.seen r.results res h2
      obtain ⟨_, wlen, winv⟩ :=
        crawl_walk_master pd fetch cfg name m dl cfg.max_pages (some u) [] seen results r hw
      exact ⟨fun hr => hlen (wlen hr), fun hi => hinv (winv hi)⟩

/-- A successful site crawl returns at most the item cap. -/
theorem crawl_site_len (pd : String → Option String) (fetch : String → Option Node)
    (name : String) (cfg : SiteCfg) (m : Nat) (results : List Job)
    (h : crawl_site pd fetch name cfg m = Except.ok results) : results.length ≤ m := by
  rw [crawl_site] at h
  cases hp : crawl_pages pd fetch cfg name m (build_pages cfg) [] [] with
  | error e => rw [hp] at h; exact Except.noConfusion h
  | ok sr =>
    rw [hp] at h
    injection h with h2
    subst h2
    exact (crawl_pages_master pd fetch cfg name m (build_pages cfg) [] [] sr hp).1 (by simp)

/-- A successful site crawl satisfies the per-site invariant. -/
theorem crawl_site_inv (pd : String → Option String) (fetch : String → Option Node)
    (name : String) (cfg : SiteCfg) (m : Nat) (results : List Job)
    (h : crawl_site pd fetch name cfg m = Except.ok results) :
    results.Pairwise (fun a b => a.key ≠ b.key) := by
  rw [crawl_site] at h
  cases hp : crawl_pages pd fetch cfg name m (build_pages cfg) [] [] with
  | error e => rw [hp] at h; exact Except.noConfusion h
  | ok sr =>
    rw [hp] at h
    injection h with h2
    subst h2
    exact ((crawl_pages_master pd fetch cfg name m (build_pages cfg) [] [] sr hp).2
      ⟨by simp, by simp⟩).2

/-- Claim C4, confirmed: every per-start-url walk terminates (crawl_walk
is a total function), a successful walk with page budget n fetches, and
hence extracts, at most n pages; a walk whose current url is already
visited stops at once with no fetch and an unchanged state; and a fetch
failure ends the walk after that single fetch with no retry and no state
change beyond recording the url as visited. -/
theorem C4_bounds :
    (∀ (pd : String → Option String) (fetch : String → Option Node) (cfg : SiteCfg)
       (name : String) (m : Nat) (dloc : Option String) (n : Nat) (url : Option String)
       (visited seen : List String) (results : List Job) (r : WalkResult),
       crawl_walk pd fetch cfg name m dloc n url visited seen results = Except.ok r →
       r.fetched.length ≤ n) ∧
    (∀ (pd : String → Option String) (fetch : String → Option Node) (cfg : SiteCfg)
       (name : String) (m : Nat) (dloc : Option String) (n : Nat) (u : String)
       (visited seen : List String) (results : List Job),
       u ∈ visited →
       crawl_walk pd fetch cfg name m dloc n (some u) visited seen results
         = Except.ok ⟨[], visited, seen, results⟩) ∧
    (∀ (pd : String → Option String) (fetch : String → Option Node) (cfg : SiteCfg)
       (name : String) (m : Nat) (dloc : Option String) (n : Nat) (u : String)
       (visited seen : List String) (results : List Job),
       u ≠ "" → u ∉ visited → results.length < m → fetch u = none →
       crawl_walk pd fetch cfg name m dloc (n + 1) (some u) visited seen results
         = Except.ok ⟨[u], visited ++ [u], seen, results⟩) := by
  refine ⟨?_, ?_, ?_⟩
  · intro pd fetch cfg name m dloc n url visited seen results r h
    exact (crawl_walk_master pd fetch cfg name m dloc n url visited seen results r h).1
  · intro pd fetch cfg name m dloc n u visited seen results hmem
    cases n with
    | zero => rfl
    | succ k =>
      simp only [crawl_walk]
      by_cases h1 : u = ""
      · simp [h1]
      · by_cases h2 : m ≤ results.length
        · simp [h1, h2]
        · simp [h1, h2, hmem]
  · intro pd fetch cfg name m dloc n u visited seen results hne hnv hlt hfetch
    simp only [crawl_walk]
    rw [if_neg hne, if_neg (Nat.not_le.mpr hlt), if_neg hnv]
    simp [hfetch]

/-- Witness for C4 at a concrete failing fetcher. -/
theorem C4_witness :
    ((["u"] : List String).length ≤ 4) ∧
    (crawl_walk pdNone fetchNone cfgX "s" 5 none 3 (some "u") ["u"] [] []
      = Except.ok ⟨[], ["u"], [], []⟩) ∧
    (crawl_walk pdNone fetchNone cfgX "s" 5 none 4 (some "u") [] [] []
      = Except.ok ⟨["u"], ["u"], [], []⟩) :=
  ⟨C4_bounds.1 pdNone fetchNone cfgX "s" 5 none 4 (some "u") [] [] []
     ⟨["u"], ["u"], [], []⟩ rfl,
   C4_bounds.2.1 pdNone fetchNone cfgX "s" 5 none 3 "u" ["u"] [] [] (by decide),
   C4_bounds.2.2 pdNone fetchNone cfgX "s" 5 none 3 "u" [] [] [] (by decide) (by decide)
     (by decide) rfl⟩

/-- Claim C5, confirmed: the per-site item cap is a single ceiling shared
across a site's start urls — batch accumulation entered below the cap
never leaves the result list above it (it short-circuits mid-batch), a
successful walk entered at or below the cap ends at or below it, and a
successful whole-site crawl returns at most maxItemsPerSite Postings. -/
theorem C5_cap :
    (∀ (m : Nat) (jobs : List Job) (seen : List String) (results : List Job),
       results.length < m → (add_jobs m jobs seen results).2.length ≤ m) ∧
    (∀ (pd : String → Option String) (fetch : String → Option Node) (cfg : SiteCfg)
       (name : String) (m : Nat) (dloc : Option String) (n : Nat) (url : Option String)
       (visited seen : List String) (results : List Job) (r : WalkResult),
       results.length ≤ m →
       crawl_walk pd fetch cfg name m dloc n url visited seen results = Except.ok r →
       r.results.length ≤ m) ∧
    (∀ (pd : String → Option String) (fetch : String → Option Node) (name : String)
       (cfg : SiteCfg) (m : Nat) (results : List Job),
       crawl_site pd fetch name cfg m = Except.ok results → results.length ≤ m) := by
  refine ⟨?_, ?_, ?_⟩
  · intro m jobs seen results h
    exact add_jobs_len m jobs seen results h
  · intro pd fetch cfg name m dloc n url visited seen results r hlen h
    exact (crawl_walk_master pd fetch cfg name m dloc n url visited seen results r h).2.1 hlen
  · intro pd fetch name cfg m results h
    exact crawl_site_len pd fetch name cfg m results h

/-- Witness for C5 at the two-anchor crawl scenario. -/
theorem C5_witness :
    ((add_jobs 1 [jobX1] [] []).2.length ≤ 1) ∧
    (([jobX1, jobX2] : List Job).length ≤ 5) ∧
    (([jobX1, jobX2] : List Job).length ≤ 5) :=
  ⟨C5_cap.1 1 [jobX1] [] [] (by decide),
   C5_cap.2.1 pdNone fetchX cfgX "s" 5 none 4 (some "start") [] [] []
     ⟨["start"], ["start"], [jobX1.key, jobX2.key], [jobX1, jobX2]⟩ (by decide) rfl,
   C5_cap.2.2 pdNone fetchX "s" cfgX 5 [jobX1, jobX2] rfl⟩

/-- Claim C10, confirmed: within one site's crawl the dedup is first-wins,
the opposite of the global last-write-wins policy — the batch loop appends
exactly the Postings the first-wins discipline keeps against the site-wide
seen set of identity keys (recording exactly their keys, and stopping at
the cap), and a successful site crawl, whose seen set persists across all
pages and start urls, never returns two Postings with equal identity
keys. -/
theorem C10_first_wins :
    (∀ (m : Nat) (jobs : List Job) (seen : List String) (results : List Job),
       add_jobs m jobs seen results =
         (seen ++ (first_wins m jobs seen results.length).map Job.key,
          results ++ first_wins m jobs seen results.length)) ∧
    (∀ (pd : String → Option String) (fetch : String → Option Node) (name : String)
       (cfg : SiteCfg) (m : Nat) (results : List Job),
       crawl_site pd fetch name cfg m = Except.ok results →
       results.Pairwise (fun a b => a.key ≠ b.key)) := by
  refine ⟨?_, ?_⟩
  · intro m jobs seen results
    exact add_jobs_first_wins m jobs seen results
  · intro pd fetch name cfg m results h
    exact crawl_site_inv pd fetch name cfg m results h

/-- Witness for C10 at the two-anchor crawl scenario. -/
theorem C10_witness :
    (add_jobs 2 [jobX1, jobX2, jobX1] [] [] =
      ([] ++ (first_wins 2 [jobX1, jobX2, jobX1] [] 0).map Job.key,
       [] ++ first_wins 2 [jobX1, jobX2, jobX1] [] 0)) ∧
    List.Pairwise (fun a b => a.key ≠ b.key) [jobX1, jobX2] :=
  ⟨C10_first_wins.1 2 [jobX1, jobX2, jobX1] [] [],
   C10_first_wins.2 pdNone fetchX "s" cfgX 5 [jobX1, jobX2] rfl⟩

end Agg
